import Mathlib

/-!
Shallow embedding of `bgpsim.py`, an AS-level BGP path-inference simulator.
Data structures and operations are translated from the source: Python dicts
become association lists preserving insertion order, `networkx` adjacency
becomes explicit neighbor lists in insertion order, runtime `assert` failures
and raised exceptions become `none`, and the inference worklist loop takes a
fuel parameter (returning `none` on exhaustion).  An inert event log records
the events needed to state trace properties: update-paths transitions,
add-work calls, enqueued edges and visited edges.
-/

namespace BGPSim

/-- AS paths are sequences of AS numbers; the head is the next hop. -/
abbrev ASPath := List Nat

/-- Peering relationship on a directed edge (`Relationship` in the source). -/
inductive Relationship
  | C2P
  | P2P
  | P2C
deriving DecidableEq

/-- Relationship in the opposite direction of an edge (`Relationship.reversed`). -/
def Relationship.reversed : Relationship → Relationship
  | .C2P => .P2C
  | .P2P => .P2P
  | .P2C => .C2P

/-- Path preference (`PathPref` in the source): CUSTOMER > PEER > PROVIDER > UNKNOWN. -/
inductive PathPref
  | UNKNOWN
  | PROVIDER
  | PEER
  | CUSTOMER
deriving DecidableEq

/-- Numeric value of a preference, mirroring the `IntEnum` values in the source. -/
def PathPref.toNat : PathPref → Nat
  | .UNKNOWN => 0
  | .PROVIDER => 1
  | .PEER => 2
  | .CUSTOMER => 3

/-- Per-node inference state: the node attributes stored on `self.g.nodes[n]`.
The import filter closes over the user data argument of `set_import_filter`. -/
structure NodeState where
  bestPaths : List ASPath
  pathPref : PathPref
  pathLen : Nat
  importFilter : Option (Nat → List ASPath → List ASPath)
  hasProvider : Bool

/-- Initial node attributes installed by `add_peering` for a fresh node. -/
def initNode : NodeState := ⟨[], .UNKNOWN, 0, none, false⟩

/-- Announcement: mapping source AS to mapping neighbor to announced AS path,
as an insertion-ordered association list (`Announcement` in the source). -/
structure Announcement where
  source2neighbor2path : List (Nat × List (Nat × ASPath))
deriving DecidableEq

/-- Ghost trace events used to state properties of a run; the log does not
influence the algorithm. -/
inductive Event
  | updateTrue (importer : Nat)
  | addWorkCall (node : Nat)
  | enqueue (exporter importer : Nat)
  | visit (exporter importer : Nat)
deriving DecidableEq

/-- Work queue: per preference bucket, a list of (depth, exporter, importer)
entries in append order. This flattens the source's depth-keyed dict of lists:
an entry at depth d in bucket p here corresponds to an element of
`pref2depth2edge[p][d]`, and append order within a depth is preserved. -/
structure WorkQueue where
  customer : List (Nat × Nat × Nat)
  peer : List (Nat × Nat × Nat)
  provider : List (Nat × Nat × Nat)
deriving DecidableEq

/-- Fresh empty work queue. -/
def WorkQueue.empty : WorkQueue := ⟨[], [], []⟩

/-- Bucket of a preference. UNKNOWN has no bucket in the source; inference
never queries it. -/
def WorkQueue.bucket (wq : WorkQueue) : PathPref → List (Nat × Nat × Nat)
  | .CUSTOMER => wq.customer
  | .PEER => wq.peer
  | .PROVIDER => wq.provider
  | .UNKNOWN => []

/-- Replace the bucket of a preference. -/
def WorkQueue.setBucket (wq : WorkQueue) : PathPref → List (Nat × Nat × Nat) → WorkQueue
  | .CUSTOMER, l => {wq with customer := l}
  | .PEER, l => {wq with peer := l}
  | .PROVIDER, l => {wq with provider := l}
  | .UNKNOWN, _ => wq

/-- Append an entry to a bucket (the `append` in `add_work`). -/
def WorkQueue.push (wq : WorkQueue) (pref : PathPref) (entry : Nat × Nat × Nat) : WorkQueue :=
  wq.setBucket pref (wq.bucket pref ++ [entry])

/-- Minimum depth among entries, seeded with an initial candidate
(`min(self.pref2depth2edge[pref])` in the source). -/
def minDepth : Nat → List (Nat × Nat × Nat) → Nat
  | d, [] => d
  | d, x :: xs => minDepth (min d x.1) xs

/-- Remove the last entry with the given depth, returning its edge.  This is
`self.pref2depth2edge[pref][depth].pop()` on the flattened bucket. -/
def popLastAtDepth (d : Nat) :
    List (Nat × Nat × Nat) → Option ((Nat × Nat) × List (Nat × Nat × Nat))
  | [] => none
  | x :: xs =>
    match popLastAtDepth d xs with
    | some (e, xs1) => some (e, x :: xs1)
    | none => if x.1 = d then some (x.2, xs) else none

/-- `WorkQueue.get`: pop the edge exporting the shortest paths with `pref`,
last-in-first-out within the minimum depth as in the source's list `pop()`. -/
def WorkQueue.get (wq : WorkQueue) (pref : PathPref) : Option ((Nat × Nat) × WorkQueue) :=
  match wq.bucket pref with
  | [] => none
  | x :: xs =>
    match popLastAtDepth (minDepth x.1 xs) (x :: xs) with
    | none => none
    | some (e, l1) => some (e, wq.setBucket pref l1)

/-- AS graph (`ASGraph` in the source): node list in insertion order,
adjacency lists in insertion order, directed edge relationships, per-node
state, the work queue, the recorded announcement and the ghost event log. -/
structure ASGraph where
  nodes : List Nat
  adj : Nat → List Nat
  edgeRel : Nat → Nat → Option Relationship
  state : Nat → NodeState
  wq : WorkQueue
  announce : Option Announcement
  log : List Event

/-- Empty AS graph, as built by the `ASGraph` constructor. -/
def ASGraph.empty : ASGraph :=
  ⟨[], fun _ => [], fun _ _ => none, fun _ => initNode, WorkQueue.empty, none, []⟩

/-- Update the state of one node. -/
def ASGraph.setNode (g : ASGraph) (n : Nat) (f : NodeState → NodeState) : ASGraph :=
  {g with state := fun m => if m = n then f (g.state m) else g.state m}

/-- Append a ghost event to the log. -/
def ASGraph.logEvent (g : ASGraph) (e : Event) : ASGraph :=
  {g with log := g.log ++ [e]}

/-- Add a node with fresh attributes if absent (the node-insertion block of
`add_peering`). -/
def ASGraph.addNode (g : ASGraph) (n : Nat) : ASGraph :=
  if n ∈ g.nodes then g
  else {g with nodes := g.nodes ++ [n],
               state := fun m => if m = n then initNode else g.state m}

/-- Add a directed edge with its relationship attribute
(`g.add_edge` followed by the `EDGE_REL` assignment). -/
def ASGraph.addEdgeDir (g : ASGraph) (u v : Nat) (r : Relationship) : ASGraph :=
  let g1 := if v ∈ g.adj u then g
            else {g with adj := fun m => if m = u then g.adj m ++ [v] else g.adj m}
  {g1 with edgeRel := fun a b => if a = u ∧ b = v then some r else g1.edgeRel a b}

/-- `ASGraph.add_peering`: reject self loops (the `assert source != sink`),
make an existing identical edge a no-op, reject a conflicting relationship,
otherwise install both directed edges and the has-provider flags. -/
def ASGraph.addPeering (g : ASGraph) (source sink : Nat) (rel : Relationship) :
    Option ASGraph :=
  if source = sink then none
  else
    match g.edgeRel source sink with
    | some r => if r ≠ rel then none else some g
    | none =>
      let g1 := g.addNode source
      let g2 := g1.addNode sink
      let g3 := g2.addEdgeDir source sink rel
      let g4 := g3.addEdgeDir sink source rel.reversed
      some (if rel = .C2P then g4.setNode source (fun st => {st with hasProvider := true})
            else if rel = .P2C then g4.setNode sink (fun st => {st with hasProvider := true})
            else g4)

/-- `PathPref.from_relationship`: preference at the importer from the
relationship stored on the reciprocal edge `g[importer][exporter]`;
`none` models the `KeyError` when the edge is missing. -/
def PathPref.fromRelationship (g : ASGraph) (exporter importer : Nat) : Option PathPref :=
  match g.edgeRel importer exporter with
  | some .P2C => some .CUSTOMER
  | some .P2P => some .PEER
  | some .C2P => some .PROVIDER
  | none => none

/-- `ASGraph.set_import_filter` with the user data closed over. -/
def ASGraph.setImportFilter (g : ASGraph) (asn : Nat)
    (f : Nat → List ASPath → List ASPath) : ASGraph :=
  g.setNode asn (fun st => {st with importFilter := some f})

/-- Body of `WorkQueue.add_work`, iterating the exporter's neighbors and
pushing the edges allowed by the Gao-Rexford export rule, while logging
each enqueue as a ghost event. -/
def addWorkAux (g : ASGraph) (pref : PathPref) (depth exporter : Nat) :
    List Nat → WorkQueue → List Event → Option (WorkQueue × List Event)
  | [], wq, log => some (wq, log)
  | d :: rest, wq, log =>
    match PathPref.fromRelationship g exporter d with
    | none => none
    | some dpref =>
      if pref = .CUSTOMER ∨ dpref = .PROVIDER then
        addWorkAux g pref depth exporter rest (wq.push dpref (depth, exporter, d))
          (log ++ [.enqueue exporter d])
      else addWorkAux g pref depth exporter rest wq log

/-- `WorkQueue.add_work(graph, exporter)` acting on the graph record that
holds the queue and the log. -/
def ASGraph.addWork (g : ASGraph) (exporter : Nat) : Option ASGraph :=
  match addWorkAux g (g.state exporter).pathPref (g.state exporter).pathLen exporter
      (g.adj exporter) g.wq (g.log ++ [.addWorkCall exporter]) with
  | none => none
  | some (wq1, log1) => some {g with wq := wq1, log := log1}

/-- Body of `WorkQueue.check_work`: every edge `add_work` would enqueue must
already be present; `none` models the assertion failure. -/
def checkWorkAux (g : ASGraph) (pref : PathPref) (depth exporter : Nat) :
    List Nat → Option Unit
  | [] => some ()
  | d :: rest =>
    match PathPref.fromRelationship g exporter d with
    | none => none
    | some dpref =>
      if pref = .CUSTOMER ∨ dpref = .PROVIDER then
        if (depth, exporter, d) ∈ g.wq.bucket dpref then checkWorkAux g pref depth exporter rest
        else none
      else checkWorkAux g pref depth exporter rest

/-- `WorkQueue.check_work(graph, exporter)`. -/
def ASGraph.checkWork (g : ASGraph) (exporter : Nat) : Option Unit :=
  checkWorkAux g (g.state exporter).pathPref (g.state exporter).pathLen exporter
    (g.adj exporter)

/-- `ASGraph._update_paths`: decide whether the importer accepts paths from
the exporter, install or extend `best_paths`, and return whether the importer
just got its first paths.  `none` models an assertion failure or `KeyError`.
The ghost `updateTrue` event is logged exactly on the first-install return. -/
def ASGraph.updatePaths (g : ASGraph) (exporter importer : Nat)
    (announcePath : Option ASPath) : Option (ASGraph × Bool) :=
  match PathPref.fromRelationship g exporter importer with
  | none => none
  | some newPref =>
    if ¬ ((g.state importer).pathPref.toNat ≥ newPref.toNat ∨
          (g.state importer).pathPref = .UNKNOWN) then none
    else if (g.state importer).pathPref.toNat > newPref.toNat then some (g, false)
    else
      match (match announcePath with
             | some ap => if importer ∈ ap then none else some [exporter :: ap]
             | none => some (((g.state exporter).bestPaths.filter
                 (fun p => decide (importer ∉ p))).map (fun p => exporter :: p))) with
      | none => none
      | some cands =>
        match (match (g.state importer).importFilter with
               | some f => f exporter cands
               | none => cands) with
        | [] => some (g, false)
        | hd :: tl =>
          if (g.state importer).pathPref = .UNKNOWN then
            some (((g.setNode importer (fun st =>
              {st with bestPaths := hd :: tl, pathLen := hd.length,
                       pathPref := newPref})).logEvent (.updateTrue importer)), true)
          else
            if (g.state importer).pathPref ≠ newPref then none
            else if ¬ (hd.length ≥ (g.state importer).pathLen) then none
            else if hd.length = (g.state importer).pathLen then
              match (g.setNode importer (fun st =>
                  {st with bestPaths := st.bestPaths ++ (hd :: tl)})).checkWork importer with
              | none => none
              | some _ => some (g.setNode importer (fun st =>
                  {st with bestPaths := st.bestPaths ++ (hd :: tl)}), false)
            else some (g, false)

/-- The recurring source pattern `if self._update_paths(...):
self.workqueue.add_work(self, importer)`. -/
def ASGraph.processUpdate (g : ASGraph) (exporter importer : Nat)
    (announcePath : Option ASPath) : Option ASGraph :=
  match g.updatePaths exporter importer announcePath with
  | none => none
  | some (g1, changed) => if changed then g1.addWork importer else some g1

/-- Membership of a node among the announcement sources
(`importer in announce.source2neighbor2path`). -/
def ASGraph.isSource (g : ASGraph) (n : Nat) : Bool :=
  match g.announce with
  | none => false
  | some a => a.source2neighbor2path.any (fun e => e.1 == n)

/-- Neighbor checks of `check_announcement` for one source. -/
def checkNeighbors (g : ASGraph) (src : Nat) : List (Nat × ASPath) → Option Unit
  | [] => some ()
  | (nei, path) :: rest =>
    if nei ∉ g.adj src then none
    else if nei ∈ path then none
    else checkNeighbors g src rest

/-- Source checks of `check_announcement`. -/
def checkSources (g : ASGraph) : List (Nat × List (Nat × ASPath)) → Option Unit
  | [] => some ()
  | (src, n2p) :: rest =>
    if src ∉ g.nodes then none
    else
      match checkNeighbors g src n2p with
      | none => none
      | some _ => checkSources g rest

/-- `ASGraph.check_announcement`: `none` models the raised `ValueError`. -/
def ASGraph.checkAnnouncement (g : ASGraph) (a : Announcement) : Option Unit :=
  checkSources g a.source2neighbor2path

/-- Dictionary lookup `announce.source2neighbor2path[src][nei]`. -/
def Announcement.lookup (a : Announcement) (src nei : Nat) : Option ASPath :=
  match a.source2neighbor2path.find? (fun e => e.1 == src) with
  | none => none
  | some (_, n2p) => (n2p.find? (fun e => e.1 == nei)).map (fun e => e.2)

/-- Lookup in the recorded announcement. -/
def ASGraph.announceLookup (g : ASGraph) (src nei : Nat) : Option ASPath :=
  match g.announce with
  | none => none
  | some a => a.lookup src nei

/-- Inner collection loop of `_make_announcements` for one source: keep the
(neighbor, source, path) items whose edge preference equals the phase. -/
def collectInner (g : ASGraph) (pref : PathPref) (src : Nat) :
    List (Nat × ASPath) → Option (List (Nat × Nat × ASPath))
  | [] => some []
  | (nei, path) :: rest =>
    match PathPref.fromRelationship g src nei with
    | none => none
    | some p =>
      match collectInner g pref src rest with
      | none => none
      | some l => some (if p = pref then (nei, src, path) :: l else l)

/-- Outer collection loop of `_make_announcements` over all sources. -/
def collectEntries (g : ASGraph) (pref : PathPref) :
    List (Nat × List (Nat × ASPath)) → Option (List (Nat × Nat × ASPath))
  | [] => some []
  | (src, n2p) :: rest =>
    match collectInner g pref src n2p with
    | none => none
    | some l1 =>
      match collectEntries g pref rest with
      | none => none
      | some l2 => some (l1 ++ l2)

/-- First-seen order of a list of keys, as Python dict insertion order. -/
def firstSeen : List Nat → List Nat → List Nat
  | _, [] => []
  | seen, x :: xs =>
    if x ∈ seen then firstSeen seen xs else x :: firstSeen (x :: seen) xs

/-- Seed the sources of one neighbor group in order: look the announced path
up again and run the update-then-add-work pattern. -/
def seedSrcs (g : ASGraph) (nei : Nat) :
    List (Nat × Nat × ASPath) → Option ASGraph
  | [] => some g
  | (_, src, _) :: rest =>
    match g.announceLookup src nei with
    | none => none
    | some ap =>
      match g.processUpdate src nei (some ap) with
      | none => none
      | some g1 => seedSrcs g1 nei rest

/-- Process one neighbor of `_make_announcements`: keep only the sources
announcing the minimum path length toward this neighbor. -/
def seedNeighbor (g : ASGraph) (entries : List (Nat × Nat × ASPath)) (nei : Nat) :
    Option ASGraph :=
  match entries.filter (fun e => e.1 == nei) with
  | [] => some g
  | e0 :: rest =>
    let minLen := rest.foldl (fun m e => min m e.2.2.length) e0.2.2.length
    seedSrcs g nei ((e0 :: rest).filter (fun e => e.2.2.length == minLen))

/-- Iterate the neighbors of `_make_announcements` in first-seen order. -/
def seedNeighbors (entries : List (Nat × Nat × ASPath)) :
    ASGraph → List Nat → Option ASGraph
  | g, [] => some g
  | g, nei :: rest =>
    match seedNeighbor g entries nei with
    | none => none
    | some g1 => seedNeighbors entries g1 rest

/-- `ASGraph._make_announcements(pref)`: initialize paths at neighbors of
sources whose edge preference matches the phase. -/
def ASGraph.makeAnnouncements (g : ASGraph) (pref : PathPref) : Option ASGraph :=
  match g.announce with
  | none => none
  | some a =>
    match collectEntries g pref a.source2neighbor2path with
    | none => none
    | some entries =>
      seedNeighbors entries g (firstSeen [] (entries.map (fun e => e.1)))

/-- Graph after dequeuing an edge: the queue shrinks and the ghost `visit`
event (the VISIT_EDGE hook point) is logged. -/
def visitStep (g : ASGraph) (e i : Nat) (wq1 : WorkQueue) : ASGraph :=
  {g with wq := wq1, log := g.log ++ [.visit e i]}

/-- Worklist loop of one phase of `infer_paths`, with fuel.  Sources never
import, and the phase assertion and update failures yield `none`. -/
def inferLoop (pref : PathPref) : Nat → ASGraph → Option ASGraph
  | 0, _ => none
  | fuel + 1, g =>
    match g.wq.get pref with
    | none => some g
    | some ((exporter, importer), wq1) =>
      if (visitStep g exporter importer wq1).isSource importer then
        inferLoop pref fuel (visitStep g exporter importer wq1)
      else
        match PathPref.fromRelationship (visitStep g exporter importer wq1)
            exporter importer with
        | none => none
        | some p =>
          if p ≠ pref then none
          else
            match (visitStep g exporter importer wq1).processUpdate
                exporter importer none with
            | none => none
            | some g2 => inferLoop pref fuel g2

/-- One phase of `infer_paths`: seed announcements then drain the queue. -/
def runPhase (pref : PathPref) (fuel : Nat) (g : ASGraph) : Option ASGraph :=
  match g.makeAnnouncements pref with
  | none => none
  | some g1 => inferLoop pref fuel g1

/-- `ASGraph.infer_paths`: single-shot check, announcement validation, then
the CUSTOMER, PEER, PROVIDER phases in order. -/
def ASGraph.inferPaths (g : ASGraph) (a : Announcement) (fuel : Nat) : Option ASGraph :=
  if g.announce = none then
    match g.checkAnnouncement a with
    | none => none
    | some _ =>
      match runPhase .CUSTOMER fuel {g with announce := some a} with
      | none => none
      | some g1 =>
        match runPhase .PEER fuel g1 with
        | none => none
        | some g2 => runPhase .PROVIDER fuel g2
  else none

/-- `ASGraph.clone`: requires that inference has not started; shares graph
structure and node state, with a fresh empty work queue and no announcement. -/
def ASGraph.clone (g : ASGraph) : Option ASGraph :=
  if g.announce = none then
    some {g with wq := WorkQueue.empty, announce := none, log := []}
  else none

/-- `Announcement.make_anycast_announcement`: each source announces the empty
path to all of its neighbors; duplicate sources collapse as in a dict. -/
def makeAnycast (g : ASGraph) (sources : List Nat) : Announcement :=
  ⟨(firstSeen [] sources).map (fun s => (s, (g.adj s).map (fun n => (n, ([] : ASPath)))))⟩

/-- Fold a list of peerings into a graph from the empty graph. -/
def buildGraphAux : ASGraph → List (Nat × Nat × Relationship) → Option ASGraph
  | g, [] => some g
  | g, (u, v, r) :: rest =>
    match g.addPeering u v r with
    | none => none
    | some g1 => buildGraphAux g1 rest

/-- Graph reachable from the empty graph by a sequence of `add_peering` calls. -/
def buildGraph (l : List (Nat × Nat × Relationship)) : Option ASGraph :=
  buildGraphAux ASGraph.empty l

/-- Install a list of import filters (`set_import_filter` calls). -/
def applyFilters : ASGraph → List (Nat × (Nat → List ASPath → List ASPath)) → ASGraph
  | g, [] => g
  | g, (asn, f) :: rest => applyFilters (g.setImportFilter asn f) rest

/-- Edge list of spec scenario S1, the implicit-withdrawal diamond. -/
def edgesS1 : List (Nat × Nat × Relationship) :=
  [(1, 3, .P2C), (1, 4, .P2C), (1, 10, .P2C), (2, 3, .P2P), (2, 5, .P2C),
   (3, 8, .P2C), (4, 6, .P2C), (5, 7, .P2C), (6, 8, .P2C), (7, 9, .P2C),
   (9, 10, .P2C)]

/-- Scenario S1 graph. -/
def gS1 : ASGraph := (buildGraph edgesS1).getD ASGraph.empty

/-- Scenario S1 run: anycast announcement from origin 10. -/
def runS1 : Option ASGraph := gS1.inferPaths (makeAnycast gS1 [10]) 100

/-- Observable state of one node of an optional run result. -/
def nodeObs (r : Option ASGraph) (n : Nat) : Option (PathPref × Nat × List ASPath) :=
  r.map (fun g => ((g.state n).pathPref, (g.state n).pathLen, (g.state n).bestPaths))

/-- Edge list of spec scenario S2, the preferred-over diamond. -/
def edgesS2 : List (Nat × Nat × Relationship) :=
  [(1, 4, .P2C), (1, 5, .P2P), (2, 3, .P2P), (2, 4, .P2C), (3, 6, .P2C),
   (4, 6, .P2C), (5, 6, .P2C)]

/-- Scenario S2 graph. -/
def gS2 : ASGraph := (buildGraph edgesS2).getD ASGraph.empty

/-- Scenario S2 run: anycast announcement from origin 4. -/
def runS2 : Option ASGraph := gS2.inferPaths (makeAnycast gS2 [4]) 100

/-- Two mutually adjacent origins: AS 1 is the provider of AS 2. -/
def gAdjacentOrigins : ASGraph := (buildGraph [(1, 2, .P2C)]).getD ASGraph.empty

/-- Run with origin set {1, 2}: each origin announces to the other. -/
def runAdjacentOrigins : Option ASGraph :=
  gAdjacentOrigins.inferPaths (makeAnycast gAdjacentOrigins [1, 2]) 100

/-- Graph for the prepending counterexample: AS 2 and AS 3 are providers of
AS 1, and AS 2 is a provider of AS 3. -/
def gPrepend : ASGraph :=
  (buildGraph [(1, 2, .C2P), (1, 3, .C2P), (3, 2, .C2P)]).getD ASGraph.empty

/-- Announcement where origin 1 prepends twice toward AS 2 and announces a
plain path toward AS 3. -/
def aPrepend : Announcement := ⟨[(1, [(2, [1, 1]), (3, [])])]⟩

/-- Same announcement without prepending. -/
def aPlain : Announcement := ⟨[(1, [(2, []), (3, [])])]⟩

/-- Run of the prepending announcement. -/
def runPrepend : Option ASGraph := gPrepend.inferPaths aPrepend 100

/-- Run of the plain announcement on the same graph. -/
def runPlain : Option ASGraph := gPrepend.inferPaths aPlain 100

/-- Final graph of the S1 run. -/
def gS1r : ASGraph := runS1.getD ASGraph.empty

/-- Final graph of the S2 run. -/
def gS2r : ASGraph := runS2.getD ASGraph.empty

/-- Clone of the S2 base graph. -/
def cS2 : ASGraph := gS2.clone.getD ASGraph.empty

/-- The source code sequence clone-then-infer, returning the final states of
the original object and of the clone. -/
def cloneAndInfer (g : ASGraph) (a : Announcement) (fuel : Nat) :
    Option (ASGraph × ASGraph) :=
  match g.clone with
  | none => none
  | some g1 =>
    match g1.inferPaths a fuel with
    | none => none
    | some h => some (g, h)

/-- Number of occurrences of an event in a log. -/
def countEv (log : List Event) (ev : Event) : Nat :=
  (log.filter (fun x => decide (x = ev))).length

/-- Number of entries of a bucket carrying a given (exporter, importer) edge. -/
def countEdge (l : List (Nat × Nat × Nat)) (e : Nat × Nat) : Nat :=
  (l.filter (fun t => decide (t.2 = e))).length

/-- Multiplicity of an edge in the whole work queue. -/
def countQ (wq : WorkQueue) (e : Nat × Nat) : Nat :=
  countEdge wq.customer e + countEdge wq.peer e + countEdge wq.provider e

/-- A filter function prunes: it only returns paths it was offered.  This is
the documented contract of `set_import_filter` (the filter returns "the set
of AS-paths that are actually imported (not discarded)"). -/
def Prunes (f : Nat → List ASPath → List ASPath) : Prop :=
  ∀ e ps q, q ∈ f e ps → q ∈ ps

/-- Loop freedom: no best path at a node contains that node. -/
def LoopFreeInv (g : ASGraph) : Prop :=
  ∀ n p, p ∈ (g.state n).bestPaths → n ∉ p

/-- No directed self edges. -/
def NoSelfEdge (g : ASGraph) : Prop := ∀ u, g.edgeRel u u = none

/-- Every installed import filter prunes. -/
def FiltersPrune (g : ASGraph) : Prop :=
  ∀ n f, (g.state n).importFilter = some f → Prunes f

/-- Invariant I1: every directed edge has a reciprocal edge carrying the
reversed relationship. -/
def EdgeSymm (g : ASGraph) : Prop :=
  ∀ u v r, g.edgeRel u v = some r → g.edgeRel v u = some r.reversed

/-- Failure condition of `check_announcement`: some origin is missing from
the graph, some advertised neighbor is not a neighbor of its origin, or some
advertised path contains its immediate neighbor. -/
def BadAnnouncement (g : ASGraph) (a : Announcement) : Prop :=
  ∃ p ∈ a.source2neighbor2path,
    p.1 ∉ g.nodes ∨ ∃ q ∈ p.2, q.1 ∉ g.adj p.1 ∨ q.1 ∈ q.2

/-- Structural facts preserved untouched by inference. -/
structure StaticInv (g : ASGraph) : Prop where
  noself : NoSelfEdge g
  nodup : ∀ u, (g.adj u).Nodup
  prune : FiltersPrune g

/-- Trace invariant tying the ghost log, the queue and the node states. -/
structure TraceInv (g : ASGraph) : Prop where
  ut_le : ∀ n, countEv g.log (.updateTrue n) ≤ 1
  ut_pref : ∀ n, 1 ≤ countEv g.log (.updateTrue n) → (g.state n).pathPref ≠ .UNKNOWN
  aw_le : ∀ n, countEv g.log (.addWorkCall n) ≤ countEv g.log (.updateTrue n)
  enq_le : ∀ x d, countEv g.log (.enqueue x d) ≤ countEv g.log (.addWorkCall x)
  visit_q : ∀ x d,
    countEv g.log (.visit x d) + countQ g.wq (x, d) ≤ countEv g.log (.enqueue x d)

/-- Combined invariant maintained by every inference step. -/
structure MasterInv (g : ASGraph) : Prop where
  static : StaticInv g
  loopfree : LoopFreeInv g
  trace : TraceInv g

/-- Facts holding for every graph reachable by `add_peering` calls. -/
structure BuildInv (g : ASGraph) : Prop where
  adjMem : ∀ u v, v ∈ g.adj u ↔ (g.edgeRel u v).isSome = true
  symm : EdgeSymm g
  noself : NoSelfEdge g
  nodup : ∀ u, (g.adj u).Nodup
  pristine : ∀ n, (g.state n).bestPaths = [] ∧ (g.state n).pathPref = .UNKNOWN ∧
    (g.state n).importFilter = none
  wqE : g.wq = WorkQueue.empty
  annE : g.announce = none
  logE : g.log = []

/-- Reversal of relationships is an involution. -/
theorem Relationship.reversed_reversed (r : Relationship) : r.reversed.reversed = r := by
  cases r <;> rfl

/-- Edge relationships after adding a directed edge. -/
theorem addEdgeDir_edgeRel (g : ASGraph) (u v : Nat) (r : Relationship) (a b : Nat) :
    (g.addEdgeDir u v r).edgeRel a b = if a = u ∧ b = v then some r else g.edgeRel a b := by
  unfold ASGraph.addEdgeDir
  by_cases h : v ∈ g.adj u <;> simp [h]

/-- Adding a directed edge does not change node state. -/
theorem addEdgeDir_state (g : ASGraph) (u v : Nat) (r : Relationship) :
    (g.addEdgeDir u v r).state = g.state := by
  unfold ASGraph.addEdgeDir
  by_cases h : v ∈ g.adj u <;> simp [h]

/-- Adding a node does not change edge relationships. -/
theorem addNode_edgeRel (g : ASGraph) (n : Nat) :
    (g.addNode n).edgeRel = g.edgeRel := by
  unfold ASGraph.addNode
  by_cases h : n ∈ g.nodes <;> simp [h]

/-- Updating one node's state does not change edge relationships. -/
theorem setNode_edgeRel (g : ASGraph) (n : Nat) (f : NodeState → NodeState) :
    (g.setNode n f).edgeRel = g.edgeRel := rfl

/-- A successful `add_peering` preserves the reciprocal-edge invariant. -/
theorem addPeering_symm {g g' : ASGraph} {u v : Nat} {r : Relationship}
    (hs : EdgeSymm g) (h : g.addPeering u v r = some g') : EdgeSymm g' := by
  unfold ASGraph.addPeering at h
  by_cases huv : u = v
  · simp [huv] at h
  · rw [if_neg huv] at h
    cases hedge : g.edgeRel u v with
    | some r0 =>
      rw [hedge] at h
      by_cases hr0 : r0 ≠ r
      · simp [hr0] at h
      · simp [hr0] at h
        exact h ▸ hs
    | none =>
      rw [hedge] at h
      injection h with h
      have hgE : g'.edgeRel =
          ((((g.addNode u).addNode v).addEdgeDir u v r).addEdgeDir v u
            r.reversed).edgeRel := by
        rw [← h]
        split
        · rfl
        · split <;> rfl
      have hrel : ∀ a b, g'.edgeRel a b =
          if a = v ∧ b = u then some r.reversed
          else if a = u ∧ b = v then some r else g.edgeRel a b := by
        intro a b
        rw [hgE, addEdgeDir_edgeRel, addEdgeDir_edgeRel, addNode_edgeRel, addNode_edgeRel]
      intro a b rr hab
      rw [hrel a b] at hab
      rw [hrel b a]
      by_cases c1 : a = v ∧ b = u
      · rw [if_pos c1] at hab
        injection hab with hab
        obtain ⟨ha, hb⟩ := c1
        subst ha; subst hb
        rw [if_neg (fun hc => huv hc.1), if_pos ⟨rfl, rfl⟩, ← hab,
          Relationship.reversed_reversed]
      · rw [if_neg c1] at hab
        by_cases c2 : a = u ∧ b = v
        · rw [if_pos c2] at hab
          injection hab with hab
          obtain ⟨ha, hb⟩ := c2
          subst ha; subst hb
          subst hab
          rw [if_pos ⟨rfl, rfl⟩]
        · rw [if_neg c2] at hab
          rw [if_neg (fun hc => c2 ⟨hc.2, hc.1⟩), if_neg (fun hc => c1 ⟨hc.2, hc.1⟩)]
          exact hs a b rr hab

/-- Folding peerings preserves the reciprocal-edge invariant. -/
theorem buildGraphAux_symm :
    ∀ (l : List (Nat × Nat × Relationship)) (g g' : ASGraph),
      EdgeSymm g → buildGraphAux g l = some g' → EdgeSymm g'
  | [], g, g', hs, h => by
    injection h with h
    exact h ▸ hs
  | (u, v, r) :: rest, g, g', hs, h => by
    unfold buildGraphAux at h
    cases hp : g.addPeering u v r with
    | none => rw [hp] at h; cases h
    | some g1 =>
      rw [hp] at h
      exact buildGraphAux_symm rest g1 g' (addPeering_symm hs hp) h

/-- Event counts add over list concatenation. -/
theorem countEv_append (l1 l2 : List Event) (ev : Event) :
    countEv (l1 ++ l2) ev = countEv l1 ev + countEv l2 ev := by
  simp [countEv, List.filter_append]

/-- Event count of a singleton log. -/
theorem countEv_single (e ev : Event) : countEv [e] ev = if e = ev then 1 else 0 := by
  by_cases h : e = ev <;> simp [countEv, List.filter, h]

/-- Event count after appending one event. -/
theorem countEv_snoc (l : List Event) (e ev : Event) :
    countEv (l ++ [e]) ev = countEv l ev + (if e = ev then 1 else 0) := by
  rw [countEv_append, countEv_single]

/-- Edge counts add over bucket concatenation. -/
theorem countEdge_append (l1 l2 : List (Nat × Nat × Nat)) (e : Nat × Nat) :
    countEdge (l1 ++ l2) e = countEdge l1 e + countEdge l2 e := by
  simp [countEdge, List.filter_append]

/-- Edge count of a singleton bucket. -/
theorem countEdge_single (t : Nat × Nat × Nat) (e : Nat × Nat) :
    countEdge [t] e = if t.2 = e then 1 else 0 := by
  by_cases h : t.2 = e <;> simp [countEdge, List.filter, h]

/-- Pushing onto a real bucket raises the matching edge count by one. -/
theorem countQ_push (wq : WorkQueue) (pref : PathPref) (hp : pref ≠ .UNKNOWN)
    (t : Nat × Nat × Nat) (ed : Nat × Nat) :
    countQ (wq.push pref t) ed = countQ wq ed + (if t.2 = ed then 1 else 0) := by
  cases pref with
  | UNKNOWN => exact absurd rfl hp
  | CUSTOMER =>
    simp only [WorkQueue.push, WorkQueue.setBucket, WorkQueue.bucket, countQ,
      countEdge_append, countEdge_single]
    omega
  | PEER =>
    simp only [WorkQueue.push, WorkQueue.setBucket, WorkQueue.bucket, countQ,
      countEdge_append, countEdge_single]
    omega
  | PROVIDER =>
    simp only [WorkQueue.push, WorkQueue.setBucket, WorkQueue.bucket, countQ,
      countEdge_append, countEdge_single]
    omega

/-- Replacing a real bucket changes the count by the bucket difference. -/
theorem countQ_setBucket (wq : WorkQueue) (pref : PathPref) (hp : pref ≠ .UNKNOWN)
    (l : List (Nat × Nat × Nat)) (ed : Nat × Nat) :
    countQ (wq.setBucket pref l) ed + countEdge (wq.bucket pref) ed =
      countQ wq ed + countEdge l ed := by
  cases pref with
  | UNKNOWN => exact absurd rfl hp
  | CUSTOMER => simp only [WorkQueue.setBucket, WorkQueue.bucket, countQ]; omega
  | PEER => simp only [WorkQueue.setBucket, WorkQueue.bucket, countQ]; omega
  | PROVIDER => simp only [WorkQueue.setBucket, WorkQueue.bucket, countQ]; omega

/-- The preference computed from a relationship is never UNKNOWN. -/
theorem fromRelationship_ne_unknown {g : ASGraph} {e i : Nat} {p : PathPref}
    (h : PathPref.fromRelationship g e i = some p) : p ≠ .UNKNOWN := by
  unfold PathPref.fromRelationship at h
  cases hr : g.edgeRel i e with
  | none => rw [hr] at h; cases h
  | some r =>
    rw [hr] at h
    cases r <;> (injection h with h; subst h; simp)

/-- A computable preference between two nodes rules out a self edge pair. -/
theorem fromRelationship_ne {g : ASGraph} {e i : Nat} {p : PathPref}
    (hns : NoSelfEdge g) (h : PathPref.fromRelationship g e i = some p) : e ≠ i := by
  intro hei
  subst hei
  unfold PathPref.fromRelationship at h
  rw [hns e] at h
  cases h

/-- Decomposition of a successful pop: the popped entry is in the bucket at
the requested depth and the remainder is the bucket without it. -/
theorem popLastAtDepth_decomp :
    ∀ (l : List (Nat × Nat × Nat)) (d : Nat) (e : Nat × Nat)
      (l1 : List (Nat × Nat × Nat)),
      popLastAtDepth d l = some (e, l1) →
      ∃ a b, l = a ++ (d, e.1, e.2) :: b ∧ l1 = a ++ b
  | [], d, e, l1, h => by cases h
  | x :: xs, d, e, l1, h => by
    unfold popLastAtDepth at h
    cases hrec : popLastAtDepth d xs with
    | some r =>
      obtain ⟨e0, xs1⟩ := r
      rw [hrec] at h
      injection h with h
      rw [Prod.mk.injEq] at h
      obtain ⟨h1, h2⟩ := h
      subst h1
      obtain ⟨a, b, ha, hb⟩ := popLastAtDepth_decomp xs d _ _ hrec
      exact ⟨x :: a, b, by rw [ha]; rfl, by rw [← h2, hb]; rfl⟩
    | none =>
      rw [hrec] at h
      by_cases hx : x.1 = d
      · rw [if_pos hx] at h
        injection h with h
        rw [Prod.mk.injEq] at h
        obtain ⟨h1, h2⟩ := h
        subst h2
        refine ⟨[], xs, ?_, rfl⟩
        have hxe : x = (d, e.1, e.2) := by rw [← h1, ← hx]
        rw [← hxe]
        rfl
      · rw [if_neg hx] at h
        cases h

/-- Decomposition of a successful `WorkQueue.get`. -/
theorem wqGet_decomp {wq : WorkQueue} {pref : PathPref} {x y : Nat} {wq' : WorkQueue}
    (h : wq.get pref = some ((x, y), wq')) :
    ∃ d a b, wq.bucket pref = a ++ (d, x, y) :: b ∧
      wq' = wq.setBucket pref (a ++ b) ∧ pref ≠ .UNKNOWN := by
  unfold WorkQueue.get at h
  cases hb : wq.bucket pref with
  | nil => rw [hb] at h; cases h
  | cons t ts =>
    rw [hb] at h
    have h3 : (match popLastAtDepth (minDepth t.1 ts) (t :: ts) with
               | none => none
               | some (e, l1) => some (e, wq.setBucket pref l1)) =
        some ((x, y), wq') := h
    clear h
    cases hpop : popLastAtDepth (minDepth t.1 ts) (t :: ts) with
    | none => rw [hpop] at h3; cases h3
    | some r =>
      obtain ⟨e0, l1⟩ := r
      rw [hpop] at h3
      have h4 : some (e0, wq.setBucket pref l1) = some ((x, y), wq') := h3
      injection h4 with h4
      rw [Prod.mk.injEq] at h4
      obtain ⟨h1, h2⟩ := h4
      obtain ⟨a, b, ha, hb1⟩ := popLastAtDepth_decomp _ _ _ _ hpop
      subst h1
      refine ⟨minDepth t.1 ts, a, b, by exact ha, by rw [← h2, hb1], ?_⟩
      intro hu
      rw [hu] at hb
      cases hb

/-- A successful `get` removes exactly one entry carrying the popped edge. -/
theorem wqGet_countQ {wq : WorkQueue} {pref : PathPref} {x y : Nat} {wq' : WorkQueue}
    (h : wq.get pref = some ((x, y), wq')) (ed : Nat × Nat) :
    countQ wq' ed + (if ed = (x, y) then 1 else 0) = countQ wq ed := by
  obtain ⟨d, a, b, hbk, hwq', hp⟩ := wqGet_decomp h
  subst hwq'
  have h1 := countQ_setBucket wq pref hp (a ++ b) ed
  rw [hbk] at h1
  have h2 : countEdge (a ++ (d, x, y) :: b) ed =
      countEdge a ed + ((if (x, y) = ed then 1 else 0) + countEdge b ed) := by
    rw [show (d, x, y) :: b = [(d, x, y)] ++ b from rfl, countEdge_append,
      countEdge_append, countEdge_single]
  rw [h2, countEdge_append] at h1
  by_cases hed : ed = (x, y)
  · rw [if_pos hed, if_pos hed.symm] at *
    omega
  · rw [if_neg hed, if_neg (fun hc => hed hc.symm)] at *
    omega

/-- Candidate paths built by `_update_paths` never contain the importer:
the seeding case asserts it, the propagation case filters it, and the
prepended exporter differs from the importer. -/
theorem cands_loopFree {g : ASGraph} {e i : Nat} {ap : Option ASPath}
    {cands : List ASPath} (hei : e ≠ i)
    (hc : (match ap with
           | some ap0 => if i ∈ ap0 then none else some [e :: ap0]
           | none => some (((g.state e).bestPaths.filter
               (fun p => decide (i ∉ p))).map (fun p => e :: p))) = some cands) :
    ∀ q ∈ cands, i ∉ q := by
  cases ap with
  | some ap0 =>
    have hc2 : (if i ∈ ap0 then none else some [e :: ap0]) = some cands := hc
    by_cases hmem : i ∈ ap0
    · rw [if_pos hmem] at hc2; cases hc2
    · rw [if_neg hmem] at hc2
      injection hc2 with hc2
      subst hc2
      intro q hq
      rw [List.mem_singleton] at hq
      subst hq
      intro hin
      rcases List.mem_cons.mp hin with h1 | h1
      · exact hei h1.symm
      · exact hmem h1
  | none =>
    have hc2 : some (((g.state e).bestPaths.filter
        (fun p => decide (i ∉ p))).map (fun p => e :: p)) = some cands := hc
    injection hc2 with hc2
    subst hc2
    intro q hq
    rw [List.mem_map] at hq
    obtain ⟨p, hp, hq⟩ := hq
    rw [List.mem_filter] at hp
    subst hq
    intro hin
    rcases List.mem_cons.mp hin with h1 | h1
    · exact hei h1.symm
    · exact (of_decide_eq_true hp.2) h1

/-- Pruning filters keep candidate loop freedom. -/
theorem newPaths_loopFree {g : ASGraph} {i e : Nat} {cands nps : List ASPath}
    (hfp : FiltersPrune g) (hcl : ∀ q ∈ cands, i ∉ q)
    (hm : (match (g.state i).importFilter with
           | some f => f e cands
           | none => cands) = nps) :
    ∀ q ∈ nps, i ∉ q := by
  cases hfl : (g.state i).importFilter with
  | some f =>
    rw [hfl] at hm
    have hm2 : f e cands = nps := hm
    subst hm2
    intro q hq
    exact hcl q (hfp i f hfl e cands q hq)
  | none =>
    rw [hfl] at hm
    have hm2 : cands = nps := hm
    subst hm2
    exact hcl

/-- State of a node after `setNode` then `logEvent`. -/
theorem setNode_logEvent_state (g : ASGraph) (n : Nat) (f : NodeState → NodeState)
    (ev : Event) (m : Nat) :
    ((g.setNode n f).logEvent ev).state m = if m = n then f (g.state m) else g.state m := rfl

/-- State of a node after `setNode`. -/
theorem setNode_state (g : ASGraph) (n : Nat) (f : NodeState → NodeState) (m : Nat) :
    (g.setNode n f).state m = if m = n then f (g.state m) else g.state m := rfl

/-- Full characterization of a successful `_update_paths` call: graph
structure, queue and announcement are untouched, only the importer state
changes, loop freedom is preserved, a true return logs exactly one
update-true event on an UNKNOWN-to-known transition, and a false return
leaves the log, the preference and the length unchanged. -/
theorem updatePaths_full {g g' : ASGraph} {e i : Nat} {ap : Option ASPath} {b : Bool}
    (hns : NoSelfEdge g) (hfp : FiltersPrune g) (hlf : LoopFreeInv g)
    (h : g.updatePaths e i ap = some (g', b)) :
    g'.nodes = g.nodes ∧ g'.adj = g.adj ∧ g'.edgeRel = g.edgeRel ∧
    g'.announce = g.announce ∧ g'.wq = g.wq ∧
    (∀ m, m ≠ i → g'.state m = g.state m) ∧
    (g'.state i).importFilter = (g.state i).importFilter ∧
    LoopFreeInv g' ∧
    (b = true → g'.log = g.log ++ [Event.updateTrue i] ∧
      (g.state i).pathPref = .UNKNOWN ∧ (g'.state i).pathPref ≠ .UNKNOWN) ∧
    (b = false → g'.log = g.log ∧
      (g'.state i).pathPref = (g.state i).pathPref ∧
      (g'.state i).pathLen = (g.state i).pathLen) := by
  unfold ASGraph.updatePaths at h
  split at h
  · cases h
  rename_i newPref hfr
  have hei : e ≠ i := fromRelationship_ne hns hfr
  have hnp : newPref ≠ .UNKNOWN := fromRelationship_ne_unknown hfr
  split at h
  · cases h
  split at h
  · injection h with h
    rw [Prod.mk.injEq] at h
    obtain ⟨h1, h2⟩ := h
    subst h1; subst h2
    exact ⟨rfl, rfl, rfl, rfl, rfl, fun m _ => rfl, rfl, hlf,
      fun hb => Bool.noConfusion hb, fun _ => ⟨rfl, rfl, rfl⟩⟩
  split at h
  · cases h
  rename_i cands hcand
  split at h
  · injection h with h
    rw [Prod.mk.injEq] at h
    obtain ⟨h1, h2⟩ := h
    subst h1; subst h2
    exact ⟨rfl, rfl, rfl, rfl, rfl, fun m _ => rfl, rfl, hlf,
      fun hb => Bool.noConfusion hb, fun _ => ⟨rfl, rfl, rfl⟩⟩
  rename_i hd tl hflt
  have hcl : ∀ q ∈ cands, i ∉ q := cands_loopFree hei hcand
  have hql : ∀ q ∈ hd :: tl, i ∉ q := newPaths_loopFree hfp hcl hflt
  split at h
  · rename_i hunk
    injection h with h
    rw [Prod.mk.injEq] at h
    obtain ⟨h1, h2⟩ := h
    subst h1; subst h2
    refine ⟨rfl, rfl, rfl, rfl, rfl, ?_, ?_, ?_, ?_, fun hb => Bool.noConfusion hb⟩
    · intro m hm
      rw [setNode_logEvent_state, if_neg hm]
    · rw [setNode_logEvent_state, if_pos rfl]
    · intro n p hp
      by_cases hni : n = i
      · subst hni
        rw [setNode_logEvent_state, if_pos rfl] at hp
        exact hql p hp
      · rw [setNode_logEvent_state, if_neg hni] at hp
        exact hlf n p hp
    · intro _
      refine ⟨rfl, hunk, ?_⟩
      rw [setNode_logEvent_state, if_pos rfl]
      exact hnp
  split at h
  · cases h
  split at h
  · cases h
  split at h
  · split at h
    · cases h
    · injection h with h
      rw [Prod.mk.injEq] at h
      obtain ⟨h1, h2⟩ := h
      subst h1; subst h2
      refine ⟨rfl, rfl, rfl, rfl, rfl, ?_, ?_, ?_, fun hb => Bool.noConfusion hb, ?_⟩
      · intro m hm
        rw [setNode_state, if_neg hm]
      · rw [setNode_state, if_pos rfl]
      · intro n p hp
        by_cases hni : n = i
        · subst hni
          rw [setNode_state, if_pos rfl] at hp
          rcases List.mem_append.mp hp with h1 | h1
          · exact hlf n p h1
          · exact hql p h1
        · rw [setNode_state, if_neg hni] at hp
          exact hlf n p hp
      · intro _
        refine ⟨rfl, ?_, ?_⟩
        · rw [setNode_state, if_pos rfl]
        · rw [setNode_state, if_pos rfl]
  · injection h with h
    rw [Prod.mk.injEq] at h
    obtain ⟨h1, h2⟩ := h
    subst h1; subst h2
    exact ⟨rfl, rfl, rfl, rfl, rfl, fun m _ => rfl, rfl, hlf,
      fun hb => Bool.noConfusion hb, fun _ => ⟨rfl, rfl, rfl⟩⟩

/-- Trace and queue accounting of the `add_work` neighbor loop: no events
other than enqueues of the exporter are logged, each distinct downstream is
enqueued at most once, and the queue gains exactly the logged enqueues. -/
theorem addWorkAux_spec :
    ∀ (ds : List Nat) (g : ASGraph) (pref : PathPref) (depth x : Nat)
      (wq : WorkQueue) (log : List Event) (wq' : WorkQueue) (log' : List Event),
      ds.Nodup →
      addWorkAux g pref depth x ds wq log = some (wq', log') →
      (∀ ev, (∀ d, ev ≠ .enqueue x d) → countEv log' ev = countEv log ev) ∧
      (∀ d, countEv log' (.enqueue x d) ≤ countEv log (.enqueue x d) +
        (if d ∈ ds then 1 else 0)) ∧
      (∀ ed, countQ wq' ed + countEv log (.enqueue ed.1 ed.2) =
             countQ wq ed + countEv log' (.enqueue ed.1 ed.2))
  | [], g, pref, depth, x, wq, log, wq', log', _, h => by
    injection h with h
    rw [Prod.mk.injEq] at h
    obtain ⟨h1, h2⟩ := h
    subst h1; subst h2
    refine ⟨fun ev _ => rfl, fun d => by simp, fun ed => rfl⟩
  | d0 :: rest, g, pref, depth, x, wq, log, wq', log', hnd, h => by
    unfold addWorkAux at h
    split at h
    · cases h
    rename_i dpref hfr2
    have hdp : dpref ≠ .UNKNOWN := fromRelationship_ne_unknown hfr2
    rw [List.nodup_cons] at hnd
    split at h
    · obtain ⟨ih1, ih2, ih3⟩ :=
        addWorkAux_spec rest g pref depth x _ _ wq' log' hnd.2 h
      refine ⟨?_, ?_, ?_⟩
      · intro ev hev
        rw [ih1 ev hev, countEv_snoc, if_neg (fun hc => hev d0 hc.symm), Nat.add_zero]
      · intro d
        have h2 := ih2 d
        by_cases hd : d = d0
        · subst hd
          rw [countEv_snoc, if_pos rfl] at h2
          rw [if_pos (List.mem_cons_self d rest)]
          have h0 : (if d ∈ rest then 1 else 0) = 0 := if_neg hnd.1
          omega
        · rw [countEv_snoc,
            if_neg (fun hc : Event.enqueue x d0 = Event.enqueue x d => by
              injection hc with hA hB; exact hd hB.symm)] at h2
          have hmono : (if d ∈ rest then 1 else 0) ≤
              (if d ∈ d0 :: rest then 1 else 0) := by
            by_cases hm : d ∈ rest
            · rw [if_pos hm, if_pos (List.mem_cons_of_mem _ hm)]
            · rw [if_neg hm]
              exact Nat.zero_le _
          omega
      · intro ed
        have h3 := ih3 ed
        rw [countEv_snoc, countQ_push wq dpref hdp (depth, x, d0) ed] at h3
        by_cases hed : (x, d0) = ed
        · have he1 : Event.enqueue x d0 = Event.enqueue ed.1 ed.2 := by
            rw [← hed]
          rw [if_pos he1, if_pos hed] at h3
          omega
        · have he1 : ¬ (Event.enqueue x d0 = Event.enqueue ed.1 ed.2) := by
            intro hc
            injection hc with hA hB
            exact hed (by rw [hA, hB])
          rw [if_neg he1, if_neg hed] at h3
          omega
    · obtain ⟨ih1, ih2, ih3⟩ :=
        addWorkAux_spec rest g pref depth x wq log wq' log' hnd.2 h
      refine ⟨ih1, ?_, ih3⟩
      intro d
      have h2 := ih2 d
      have hmono : (if d ∈ rest then 1 else 0) ≤
          (if d ∈ d0 :: rest then 1 else 0) := by
        by_cases hm : d ∈ rest
        · rw [if_pos hm, if_pos (List.mem_cons_of_mem _ hm)]
        · rw [if_neg hm]
          exact Nat.zero_le _
      omega

/-- Structural and trace accounting of a successful `add_work` call. -/
theorem addWork_spec {g g' : ASGraph} {x : Nat} (hnd : (g.adj x).Nodup)
    (h : g.addWork x = some g') :
    g'.nodes = g.nodes ∧ g'.adj = g.adj ∧ g'.edgeRel = g.edgeRel ∧
    g'.state = g.state ∧ g'.announce = g.announce ∧
    (∀ n, countEv g'.log (.updateTrue n) = countEv g.log (.updateTrue n)) ∧
    (∀ a c, countEv g'.log (.visit a c) = countEv g.log (.visit a c)) ∧
    (∀ n, countEv g'.log (.addWorkCall n) =
      countEv g.log (.addWorkCall n) + (if n = x then 1 else 0)) ∧
    (∀ a d, a ≠ x → countEv g'.log (.enqueue a d) = countEv g.log (.enqueue a d)) ∧
    (∀ d, countEv g'.log (.enqueue x d) ≤ countEv g.log (.enqueue x d) + 1) ∧
    (∀ ed, countQ g'.wq ed + countEv g.log (.enqueue ed.1 ed.2) =
           countQ g.wq ed + countEv g'.log (.enqueue ed.1 ed.2)) := by
  unfold ASGraph.addWork at h
  split at h
  · cases h
  rename_i r wq1 log1 heq
  injection h with h
  subst h
  dsimp only
  obtain ⟨a1, a2, a3⟩ := addWorkAux_spec (g.adj x) g (g.state x).pathPref
    (g.state x).pathLen x g.wq (g.log ++ [.addWorkCall x]) wq1 log1 hnd heq
  refine ⟨rfl, rfl, rfl, rfl, rfl, ?_, ?_, ?_, ?_, ?_, ?_⟩
  · intro n
    rw [a1 (.updateTrue n) (fun d hc => Event.noConfusion hc), countEv_snoc,
      if_neg (fun hc => Event.noConfusion hc), Nat.add_zero]
  · intro a c
    rw [a1 (.visit a c) (fun d hc => Event.noConfusion hc), countEv_snoc,
      if_neg (fun hc => Event.noConfusion hc), Nat.add_zero]
  · intro n
    rw [a1 (.addWorkCall n) (fun d hc => Event.noConfusion hc), countEv_snoc]
    by_cases hn : n = x
    · subst hn
      rw [if_pos rfl, if_pos rfl]
    · rw [if_neg (fun hc : Event.addWorkCall x = Event.addWorkCall n => by
        injection hc with hA; exact hn hA.symm), if_neg hn]
  · intro a d ha
    rw [a1 (.enqueue a d) (fun d2 hc => by
        injection hc with hA hB; exact ha hA), countEv_snoc,
      if_neg (fun hc : Event.addWorkCall x = Event.enqueue a d =>
        Event.noConfusion hc), Nat.add_zero]
  · intro d
    have h2 := a2 d
    rw [countEv_snoc, if_neg (fun hc : Event.addWorkCall x = Event.enqueue x d =>
      Event.noConfusion hc)] at h2
    by_cases hm : d ∈ g.adj x
    · rw [if_pos hm] at h2
      omega
    · rw [if_neg hm] at h2
      omega
  · intro ed
    have h3 := a3 ed
    rw [countEv_snoc, if_neg (fun hc : Event.addWorkCall x = Event.enqueue ed.1 ed.2 =>
      Event.noConfusion hc)] at h3
    omega

/-- Appending a different event leaves a count unchanged. -/
theorem countEv_snoc_ne (l : List Event) {e ev : Event} (h : e ≠ ev) :
    countEv (l ++ [e]) ev = countEv l ev := by
  rw [countEv_snoc, if_neg h, Nat.add_zero]

/-- Appending the counted event raises its count by one. -/
theorem countEv_snoc_self (l : List Event) (e : Event) :
    countEv (l ++ [e]) e = countEv l e + 1 := by
  rw [countEv_snoc, if_pos rfl]

/-- The update-then-add-work pattern preserves the combined invariant. -/
theorem processUpdate_master {g g' : ASGraph} {e i : Nat} {ap : Option ASPath}
    (M : MasterInv g) (h : g.processUpdate e i ap = some g') : MasterInv g' := by
  unfold ASGraph.processUpdate at h
  split at h
  · cases h
  rename_i r g2 ch hup
  obtain ⟨hnodes, hadj, hedge, hann, hwq, hstm, hfil, hlf2, htrue, hfalse⟩ :=
    updatePaths_full M.static.noself M.static.prune M.loopfree hup
  have hs2 : StaticInv g2 := by
    refine ⟨?_, ?_, ?_⟩
    · intro u
      rw [hedge]
      exact M.static.noself u
    · intro u
      rw [hadj]
      exact M.static.nodup u
    · intro n f hf
      by_cases hni : n = i
      · subst hni
        rw [hfil] at hf
        exact M.static.prune n f hf
      · rw [hstm n hni] at hf
        exact M.static.prune n f hf
  cases ch with
  | false =>
    simp only [Bool.false_eq_true, if_false, Option.some.injEq] at h
    subst h
    obtain ⟨hlog, hpref, hlen⟩ := hfalse rfl
    refine ⟨hs2, hlf2, ?_, ?_, ?_, ?_, ?_⟩
    · intro n
      rw [hlog]
      exact M.trace.ut_le n
    · intro n hn
      rw [hlog] at hn
      by_cases hni : n = i
      · subst hni
        rw [hpref]
        exact M.trace.ut_pref n hn
      · rw [hstm n hni]
        exact M.trace.ut_pref n hn
    · intro n
      rw [hlog]
      exact M.trace.aw_le n
    · intro a d
      rw [hlog]
      exact M.trace.enq_le a d
    · intro a d
      rw [hlog, hwq]
      exact M.trace.visit_q a d
  | true =>
    simp only [if_true, Option.some.injEq] at h
    obtain ⟨hlog2, hprefU, hpref2⟩ := htrue rfl
    have hnd2 : (g2.adj i).Nodup := by
      rw [hadj]
      exact M.static.nodup i
    obtain ⟨b1, b2, b3, b4, b5, b6, b7, b8, b9, b10, b11⟩ := addWork_spec hnd2 h
    have hUTi0 : countEv g.log (.updateTrue i) = 0 := by
      by_contra hc
      exact (M.trace.ut_pref i (Nat.one_le_iff_ne_zero.mpr hc)) hprefU
    have hAWi0 : countEv g.log (.addWorkCall i) = 0 := by
      have := M.trace.aw_le i
      omega
    have hENQi0 : ∀ d, countEv g.log (.enqueue i d) = 0 := by
      intro d
      have := M.trace.enq_le i d
      omega
    have hC2ut : ∀ n, countEv g2.log (.updateTrue n) =
        countEv g.log (.updateTrue n) + (if n = i then 1 else 0) := by
      intro n
      rw [hlog2, countEv_snoc]
      by_cases hni : n = i
      · subst hni
        rw [if_pos rfl, if_pos rfl]
      · rw [if_neg (fun hc : Event.updateTrue i = Event.updateTrue n => by
          injection hc with hA; exact hni hA.symm), if_neg hni]
    have hC2aw : ∀ n, countEv g2.log (.addWorkCall n) =
        countEv g.log (.addWorkCall n) := by
      intro n
      rw [hlog2]
      exact countEv_snoc_ne _ (fun hc => Event.noConfusion hc)
    have hC2enq : ∀ a d, countEv g2.log (.enqueue a d) =
        countEv g.log (.enqueue a d) := by
      intro a d
      rw [hlog2]
      exact countEv_snoc_ne _ (fun hc => Event.noConfusion hc)
    have hC2v : ∀ a d, countEv g2.log (.visit a d) =
        countEv g.log (.visit a d) := by
      intro a d
      rw [hlog2]
      exact countEv_snoc_ne _ (fun hc => Event.noConfusion hc)
    have hs' : StaticInv g' := by
      refine ⟨?_, ?_, ?_⟩
      · intro u
        rw [b3, hedge]
        exact M.static.noself u
      · intro u
        rw [b2, hadj]
        exact M.static.nodup u
      · intro n f hf
        rw [b4] at hf
        exact hs2.prune n f hf
    have hlf' : LoopFreeInv g' := by
      intro n p hp
      rw [b4] at hp
      exact hlf2 n p hp
    refine ⟨hs', hlf', ?_, ?_, ?_, ?_, ?_⟩
    · intro n
      rw [b6 n, hC2ut n]
      by_cases hni : n = i
      · subst hni
        rw [if_pos rfl, hUTi0]
      · rw [if_neg hni]
        have := M.trace.ut_le n
        omega
    · intro n hn
      rw [b4]
      by_cases hni : n = i
      · subst hni
        exact hpref2
      · rw [hstm n hni]
        rw [b6 n, hC2ut n, if_neg hni] at hn
        exact M.trace.ut_pref n (by omega)
    · intro n
      rw [b6 n, hC2ut n, b8 n, hC2aw n]
      by_cases hni : n = i
      · subst hni
        rw [if_pos rfl, hUTi0, hAWi0]
      · rw [if_neg hni]
        have := M.trace.aw_le n
        omega
    · intro a d
      rw [b8 a, hC2aw a]
      by_cases hai : a = i
      · subst hai
        rw [if_pos rfl, hAWi0]
        have h10 := b10 d
        rw [hC2enq a d, hENQi0 d] at h10
        omega
      · rw [if_neg hai, b9 a d hai, hC2enq a d]
        exact M.trace.enq_le a d
    · intro a d
      have h11 := b11 (a, d)
      dsimp only at h11
      rw [hC2enq a d, hwq] at h11
      rw [b7 a d, hC2v a d]
      have hM := M.trace.visit_q a d
      omega

/-- Seeding the sources of one neighbor preserves the combined invariant. -/
theorem seedSrcs_master :
    ∀ (l : List (Nat × Nat × ASPath)) (nei : Nat) (g g' : ASGraph),
      MasterInv g → seedSrcs g nei l = some g' → MasterInv g'
  | [], _, g, g', M, h => by
    injection h with h
    subst h
    exact M
  | (a, src, p) :: rest, nei, g, g', M, h => by
    unfold seedSrcs at h
    split at h
    · cases h
    rename_i ap hlk
    split at h
    · cases h
    rename_i g1 hpu
    exact seedSrcs_master rest nei g1 g' (processUpdate_master M hpu) h

/-- Seeding one neighbor preserves the combined invariant. -/
theorem seedNeighbor_master {g g' : ASGraph} {entries : List (Nat × Nat × ASPath)}
    {nei : Nat} (M : MasterInv g) (h : seedNeighbor g entries nei = some g') :
    MasterInv g' := by
  unfold seedNeighbor at h
  split at h
  · injection h with h
    subst h
    exact M
  · exact seedSrcs_master _ nei g g' M h

/-- Seeding a list of neighbors preserves the combined invariant. -/
theorem seedNeighbors_master :
    ∀ (neis : List Nat) (entries : List (Nat × Nat × ASPath)) (g g' : ASGraph),
      MasterInv g → seedNeighbors entries g neis = some g' → MasterInv g'
  | [], _, g, g', M, h => by
    injection h with h
    subst h
    exact M
  | nei :: rest, entries, g, g', M, h => by
    unfold seedNeighbors at h
    split at h
    · cases h
    rename_i g1 hsn
    exact seedNeighbors_master rest entries g1 g' (seedNeighbor_master M hsn) h

/-- The seeding phase `_make_announcements` preserves the invariant. -/
theorem makeAnnouncements_master {g g' : ASGraph} {pref : PathPref}
    (M : MasterInv g) (h : g.makeAnnouncements pref = some g') : MasterInv g' := by
  unfold ASGraph.makeAnnouncements at h
  split at h
  · cases h
  rename_i a ha
  split at h
  · cases h
  rename_i entries hent
  exact seedNeighbors_master _ entries g g' M h

/-- Dequeuing an edge and logging the visit preserves the invariant. -/
theorem popVisit_master {g : ASGraph} {pref : PathPref} {e i : Nat} {wq1 : WorkQueue}
    (M : MasterInv g) (hget : g.wq.get pref = some ((e, i), wq1)) :
    MasterInv (visitStep g e i wq1) := by
  refine ⟨⟨M.static.noself, M.static.nodup, M.static.prune⟩, M.loopfree,
    ?_, ?_, ?_, ?_, ?_⟩
  · intro n
    show countEv (g.log ++ [Event.visit e i]) (.updateTrue n) ≤ 1
    rw [countEv_snoc_ne _ (fun hc => Event.noConfusion hc)]
    exact M.trace.ut_le n
  · intro n hn
    have hn2 : 1 ≤ countEv (g.log ++ [Event.visit e i]) (.updateTrue n) := hn
    rw [countEv_snoc_ne _ (fun hc => Event.noConfusion hc)] at hn2
    exact M.trace.ut_pref n hn2
  · intro n
    show countEv (g.log ++ [Event.visit e i]) (.addWorkCall n) ≤
      countEv (g.log ++ [Event.visit e i]) (.updateTrue n)
    rw [countEv_snoc_ne _ (fun hc => Event.noConfusion hc),
      countEv_snoc_ne _ (fun hc => Event.noConfusion hc)]
    exact M.trace.aw_le n
  · intro a d
    show countEv (g.log ++ [Event.visit e i]) (.enqueue a d) ≤
      countEv (g.log ++ [Event.visit e i]) (.addWorkCall a)
    rw [countEv_snoc_ne _ (fun hc => Event.noConfusion hc),
      countEv_snoc_ne _ (fun hc => Event.noConfusion hc)]
    exact M.trace.enq_le a d
  · intro a d
    show countEv (g.log ++ [Event.visit e i]) (.visit a d) + countQ wq1 (a, d) ≤
      countEv (g.log ++ [Event.visit e i]) (.enqueue a d)
    rw [@countEv_snoc_ne g.log (Event.visit e i) (Event.enqueue a d)
      (fun hc => Event.noConfusion hc)]
    have hq := wqGet_countQ hget (a, d)
    have hM := M.trace.visit_q a d
    by_cases hpair : (a, d) = (e, i)
    · have hae : a = e := congrArg Prod.fst hpair
      have hdi : d = i := congrArg Prod.snd hpair
      subst hae
      subst hdi
      rw [countEv_snoc_self]
      rw [if_pos rfl] at hq
      omega
    · rw [@countEv_snoc_ne g.log (Event.visit e i) (Event.visit a d)
        (fun hc => by
          injection hc with hA hB
          exact hpair (by rw [hA, hB]))]
      rw [if_neg hpair] at hq
      omega

/-- The worklist loop preserves the combined invariant. -/
theorem inferLoop_master (pref : PathPref) :
    ∀ (fuel : Nat) (g g' : ASGraph), MasterInv g →
      inferLoop pref fuel g = some g' → MasterInv g'
  | 0, g, g', _, h => by cases h
  | fuel + 1, g, g', M, h => by
    unfold inferLoop at h
    split at h
    · injection h with h
      subst h
      exact M
    rename_i r e i wq1 hget
    have M1 : MasterInv (visitStep g e i wq1) := popVisit_master M hget
    split at h
    · exact inferLoop_master pref fuel _ g' M1 h
    · split at h
      · cases h
      rename_i p hfr
      split at h
      · cases h
      split at h
      · cases h
      rename_i g2 hpu
      exact inferLoop_master pref fuel g2 g' (processUpdate_master M1 hpu) h

/-- One phase of inference preserves the combined invariant. -/
theorem runPhase_master {pref : PathPref} {fuel : Nat} {g g' : ASGraph}
    (M : MasterInv g) (h : runPhase pref fuel g = some g') : MasterInv g' := by
  unfold runPhase at h
  split at h
  · cases h
  rename_i g1 hma
  exact inferLoop_master pref fuel g1 g' (makeAnnouncements_master M hma) h

/-- Recording the announcement does not affect the invariant. -/
theorem masterInv_setAnnounce {g : ASGraph} (a : Announcement) (M : MasterInv g) :
    MasterInv {g with announce := some a} :=
  ⟨⟨M.static.noself, M.static.nodup, M.static.prune⟩, M.loopfree,
   ⟨M.trace.ut_le, M.trace.ut_pref, M.trace.aw_le, M.trace.enq_le, M.trace.visit_q⟩⟩

/-- A completed `infer_paths` run preserves the combined invariant. -/
theorem inferPaths_master {g g' : ASGraph} {a : Announcement} {fuel : Nat}
    (M : MasterInv g) (h : g.inferPaths a fuel = some g') : MasterInv g' := by
  unfold ASGraph.inferPaths at h
  split at h
  · split at h
    · cases h
    split at h
    · cases h
    rename_i g1 h1
    split at h
    · cases h
    rename_i g2 h2
    exact runPhase_master (runPhase_master (runPhase_master
      (masterInv_setAnnounce a M) h1) h2) h
  · cases h

/-- Adding a node does not change adjacency. -/
theorem addNode_adj (g : ASGraph) (n : Nat) : (g.addNode n).adj = g.adj := by
  unfold ASGraph.addNode
  split <;> rfl

/-- Adding a node does not change the work queue. -/
theorem addNode_wq (g : ASGraph) (n : Nat) : (g.addNode n).wq = g.wq := by
  unfold ASGraph.addNode
  split <;> rfl

/-- Adding a node does not change the announcement. -/
theorem addNode_announce (g : ASGraph) (n : Nat) : (g.addNode n).announce = g.announce := by
  unfold ASGraph.addNode
  split <;> rfl

/-- Adding a node does not change the log. -/
theorem addNode_log (g : ASGraph) (n : Nat) : (g.addNode n).log = g.log := by
  unfold ASGraph.addNode
  split <;> rfl

/-- Node state after adding a node: unchanged or freshly initialized. -/
theorem addNode_state (g : ASGraph) (n m : Nat) :
    (g.addNode n).state m = g.state m ∨ (g.addNode n).state m = initNode := by
  unfold ASGraph.addNode
  split
  · exact Or.inl rfl
  · dsimp only
    by_cases hm : m = n
    · rw [if_pos hm]
      exact Or.inr rfl
    · rw [if_neg hm]
      exact Or.inl rfl

/-- Adding a directed edge does not change the work queue. -/
theorem addEdgeDir_wq (g : ASGraph) (u v : Nat) (r : Relationship) :
    (g.addEdgeDir u v r).wq = g.wq := by
  unfold ASGraph.addEdgeDir
  by_cases hv : v ∈ g.adj u <;> simp [hv]

/-- Adding a directed edge does not change the announcement. -/
theorem addEdgeDir_announce (g : ASGraph) (u v : Nat) (r : Relationship) :
    (g.addEdgeDir u v r).announce = g.announce := by
  unfold ASGraph.addEdgeDir
  by_cases hv : v ∈ g.adj u <;> simp [hv]

/-- Adding a directed edge does not change the log. -/
theorem addEdgeDir_log (g : ASGraph) (u v : Nat) (r : Relationship) :
    (g.addEdgeDir u v r).log = g.log := by
  unfold ASGraph.addEdgeDir
  by_cases hv : v ∈ g.adj u <;> simp [hv]

/-- Adjacency after adding a fresh directed edge. -/
theorem addEdgeDir_adj_notmem {g : ASGraph} {u v : Nat} (r : Relationship)
    (hv : v ∉ g.adj u) (m : Nat) :
    (g.addEdgeDir u v r).adj m = if m = u then g.adj m ++ [v] else g.adj m := by
  unfold ASGraph.addEdgeDir
  simp [hv]

/-- A successful `add_peering` preserves the construction invariant. -/
theorem addPeering_build {g g' : ASGraph} {u v : Nat} {r : Relationship}
    (B : BuildInv g) (h : g.addPeering u v r = some g') : BuildInv g' := by
  have hsymm : EdgeSymm g' := addPeering_symm B.symm h
  unfold ASGraph.addPeering at h
  by_cases huv : u = v
  · simp [huv] at h
  rw [if_neg huv] at h
  cases hedge : g.edgeRel u v with
  | some r0 =>
    rw [hedge] at h
    by_cases hr0 : r0 ≠ r
    · simp [hr0] at h
    · simp [hr0] at h
      exact h ▸ B
  | none =>
    rw [hedge] at h
    injection h with h
    have hvu : g.edgeRel v u = none := by
      cases hvu2 : g.edgeRel v u with
      | none => rfl
      | some r2 =>
        have h2 := B.symm v u r2 hvu2
        rw [hedge] at h2
        cases h2
    have hvnot : v ∉ g.adj u := by
      intro hmem
      have h2 := (B.adjMem u v).1 hmem
      rw [hedge] at h2
      cases h2
    have hunot : u ∉ g.adj v := by
      intro hmem
      have h2 := (B.adjMem v u).1 hmem
      rw [hvu] at h2
      cases h2
    have hadj2 : ((g.addNode u).addNode v).adj = g.adj := by
      rw [addNode_adj, addNode_adj]
    have hadj3 : ∀ m, ((((g.addNode u).addNode v).addEdgeDir u v r)).adj m =
        if m = u then g.adj m ++ [v] else g.adj m := by
      intro m
      rw [addEdgeDir_adj_notmem r (by rw [hadj2]; exact hvnot) m, hadj2]
    have hunot3 : u ∉ ((((g.addNode u).addNode v).addEdgeDir u v r)).adj v := by
      rw [hadj3 v, if_neg (fun hc => huv hc.symm)]
      exact hunot
    have hadjF : ∀ m, (((((g.addNode u).addNode v).addEdgeDir u v r).addEdgeDir v u
        r.reversed)).adj m =
        if m = u then g.adj u ++ [v]
        else if m = v then g.adj v ++ [u] else g.adj m := by
      intro m
      rw [addEdgeDir_adj_notmem r.reversed hunot3 m]
      by_cases hmv : m = v
      · subst hmv
        rw [if_pos rfl, if_neg (fun hc => huv hc.symm), hadj3 m,
          if_neg (fun hc => huv hc.symm), if_pos rfl]
      · rw [if_neg hmv, hadj3 m]
        by_cases hmu : m = u
        · subst hmu
          rw [if_pos rfl, if_pos rfl]
        · rw [if_neg hmu, if_neg hmu, if_neg hmv]
    have hrelF : ∀ a b, (((((g.addNode u).addNode v).addEdgeDir u v r).addEdgeDir v u
        r.reversed)).edgeRel a b =
        if a = v ∧ b = u then some r.reversed
        else if a = u ∧ b = v then some r else g.edgeRel a b := by
      intro a b
      rw [addEdgeDir_edgeRel, addEdgeDir_edgeRel, addNode_edgeRel, addNode_edgeRel]
    have hgadj : g'.adj = (((((g.addNode u).addNode v).addEdgeDir u v r).addEdgeDir v u
        r.reversed)).adj := by
      rw [← h]
      split
      · rfl
      · split <;> rfl
    have hgrel : g'.edgeRel = (((((g.addNode u).addNode v).addEdgeDir u v
        r).addEdgeDir v u r.reversed)).edgeRel := by
      rw [← h]
      split
      · rfl
      · split <;> rfl
    have hst2 : ∀ n, (((g.addNode u).addNode v).state n).bestPaths = [] ∧
        (((g.addNode u).addNode v).state n).pathPref = .UNKNOWN ∧
        (((g.addNode u).addNode v).state n).importFilter = none := by
      intro n
      rcases addNode_state (g.addNode u) v n with h1 | h1
      · rw [h1]
        rcases addNode_state g u n with h2 | h2
        · rw [h2]
          exact B.pristine n
        · rw [h2]
          exact ⟨rfl, rfl, rfl⟩
      · rw [h1]
        exact ⟨rfl, rfl, rfl⟩
    have hst4 : (((((g.addNode u).addNode v).addEdgeDir u v r).addEdgeDir v u
        r.reversed)).state = ((g.addNode u).addNode v).state := by
      rw [addEdgeDir_state, addEdgeDir_state]
    have hstF : ∀ n, (g'.state n).bestPaths = [] ∧
        (g'.state n).pathPref = .UNKNOWN ∧ (g'.state n).importFilter = none := by
      intro n
      have base := hst2 n
      rw [← hst4] at base
      rw [← h]
      split
      · rw [setNode_state]
        by_cases hn : n = u
        · rw [if_pos hn]
          exact base
        · rw [if_neg hn]
          exact base
      · split
        · rw [setNode_state]
          by_cases hn : n = v
          · rw [if_pos hn]
            exact base
          · rw [if_neg hn]
            exact base
        · exact base
    have hwq4 : g'.wq = g.wq := by
      rw [← h]
      have : (((((g.addNode u).addNode v).addEdgeDir u v r).addEdgeDir v u
          r.reversed)).wq = g.wq := by
        rw [addEdgeDir_wq, addEdgeDir_wq, addNode_wq, addNode_wq]
      split
      · exact this
      · split
        · exact this
        · exact this
    have hann4 : g'.announce = g.announce := by
      rw [← h]
      have : (((((g.addNode u).addNode v).addEdgeDir u v r).addEdgeDir v u
          r.reversed)).announce = g.announce := by
        rw [addEdgeDir_announce, addEdgeDir_announce, addNode_announce, addNode_announce]
      split
      · exact this
      · split
        · exact this
        · exact this
    have hlog4 : g'.log = g.log := by
      rw [← h]
      have : (((((g.addNode u).addNode v).addEdgeDir u v r).addEdgeDir v u
          r.reversed)).log = g.log := by
        rw [addEdgeDir_log, addEdgeDir_log, addNode_log, addNode_log]
      split
      · exact this
      · split
        · exact this
        · exact this
    refine ⟨?_, hsymm, ?_, ?_, hstF, by rw [hwq4]; exact B.wqE,
      by rw [hann4]; exact B.annE, by rw [hlog4]; exact B.logE⟩
    · intro a b
      rw [hgadj, hgrel, hadjF a, hrelF a b]
      by_cases hau : a = u
      · subst hau
        rw [if_pos rfl, if_neg (fun hc => huv hc.1)]
        by_cases hbv : b = v
        · subst hbv
          rw [if_pos ⟨rfl, rfl⟩]
          simp
        · rw [if_neg (fun hc => hbv hc.2)]
          rw [List.mem_append, List.mem_singleton]
          constructor
          · intro hc
            rcases hc with hc | hc
            · exact (B.adjMem a b).1 hc
            · exact absurd hc hbv
          · intro hc
            exact Or.inl ((B.adjMem a b).2 hc)
      · rw [if_neg hau]
        by_cases hav : a = v
        · subst hav
          rw [if_pos rfl]
          by_cases hbu : b = u
          · subst hbu
            rw [if_pos ⟨rfl, rfl⟩]
            simp
          · rw [if_neg (fun hc => hbu hc.2), if_neg (fun hc => hau hc.1)]
            rw [List.mem_append, List.mem_singleton]
            constructor
            · intro hc
              rcases hc with hc | hc
              · exact (B.adjMem a b).1 hc
              · exact absurd hc hbu
            · intro hc
              exact Or.inl ((B.adjMem a b).2 hc)
        · rw [if_neg hav, if_neg (fun hc => hav hc.1), if_neg (fun hc => hau hc.1)]
          exact B.adjMem a b
    · intro a
      rw [hgrel, hrelF a a]
      rw [if_neg (fun hc => huv (by rw [← hc.2, hc.1])),
        if_neg (fun hc => huv (by rw [← hc.1, hc.2]))]
      exact B.noself a
    · intro m
      rw [hgadj, hadjF m]
      by_cases hmu : m = u
      · rw [if_pos hmu]
        rw [List.nodup_append]
        refine ⟨B.nodup u, List.nodup_singleton v, ?_⟩
        intro x hx hx2
        rw [List.mem_singleton] at hx2
        subst hx2
        exact hvnot hx
      · rw [if_neg hmu]
        by_cases hmv : m = v
        · rw [if_pos hmv]
          rw [List.nodup_append]
          refine ⟨B.nodup v, List.nodup_singleton u, ?_⟩
          intro x hx hx2
          rw [List.mem_singleton] at hx2
          subst hx2
          exact hunot hx
        · rw [if_neg hmv]
          exact B.nodup m

/-- Folding peerings preserves the construction invariant. -/
theorem buildGraphAux_build :
    ∀ (l : List (Nat × Nat × Relationship)) (g g' : ASGraph),
      BuildInv g → buildGraphAux g l = some g' → BuildInv g'
  | [], g, g', B, h => by
    injection h with h
    subst h
    exact B
  | (u, v, r) :: rest, g, g', B, h => by
    unfold buildGraphAux at h
    split at h
    · cases h
    rename_i g1 hp
    exact buildGraphAux_build rest g1 g' (addPeering_build B hp) h

/-- The empty graph satisfies the construction invariant. -/
theorem buildInv_empty : BuildInv ASGraph.empty := by
  refine ⟨?_, ?_, ?_, ?_, ?_, rfl, rfl, rfl⟩
  · intro u b
    simp [ASGraph.empty]
  · intro u b r hr
    simp [ASGraph.empty] at hr
  · intro u
    rfl
  · intro u
    simp [ASGraph.empty]
  · intro n
    exact ⟨rfl, rfl, rfl⟩

/-- Every graph built by `add_peering` calls satisfies the construction
invariant. -/
theorem buildGraph_build {l : List (Nat × Nat × Relationship)} {g : ASGraph}
    (h : buildGraph l = some g) : BuildInv g :=
  buildGraphAux_build l ASGraph.empty g buildInv_empty h

/-- Installing filters changes nothing but the import-filter fields, and
every installed filter is either pre-existing or from the supplied list. -/
theorem applyFilters_static :
    ∀ (fs : List (Nat × (Nat → List ASPath → List ASPath))) (g : ASGraph),
      (applyFilters g fs).adj = g.adj ∧ (applyFilters g fs).edgeRel = g.edgeRel ∧
      (applyFilters g fs).wq = g.wq ∧ (applyFilters g fs).announce = g.announce ∧
      (applyFilters g fs).log = g.log ∧
      (∀ n, ((applyFilters g fs).state n).bestPaths = (g.state n).bestPaths ∧
        ((applyFilters g fs).state n).pathPref = (g.state n).pathPref) ∧
      (∀ n f2, ((applyFilters g fs).state n).importFilter = some f2 →
        (g.state n).importFilter = some f2 ∨ ∃ asn, (asn, f2) ∈ fs)
  | [], g => ⟨rfl, rfl, rfl, rfl, rfl, fun _ => ⟨rfl, rfl⟩, fun _ _ hf => Or.inl hf⟩
  | (asn, f) :: rest, g => by
    unfold applyFilters
    obtain ⟨h1, h2, h3, h4, h5, h6, h7⟩ :=
      applyFilters_static rest (g.setImportFilter asn f)
    refine ⟨h1, h2, h3, h4, h5, ?_, ?_⟩
    · intro n
      obtain ⟨hb1, hb2⟩ := h6 n
      rw [hb1, hb2]
      unfold ASGraph.setImportFilter
      rw [setNode_state]
      by_cases hn : n = asn
      · rw [if_pos hn]
        exact ⟨rfl, rfl⟩
      · rw [if_neg hn]
        exact ⟨rfl, rfl⟩
    · intro n f2 hf
      rcases h7 n f2 hf with hc | ⟨asn2, hmem⟩
      · unfold ASGraph.setImportFilter at hc
        rw [setNode_state] at hc
        by_cases hn : n = asn
        · rw [if_pos hn] at hc
          have hc2 : some f = some f2 := hc
          injection hc2 with hc2
          exact Or.inr ⟨asn, by rw [← hc2]; exact List.mem_cons_self _ _⟩
        · rw [if_neg hn] at hc
          exact Or.inl hc
      · exact Or.inr ⟨asn2, List.mem_cons_of_mem _ hmem⟩

/-- The combined invariant holds before inference on any graph built by
`add_peering` calls with pruning import filters installed. -/
theorem initial_master (l : List (Nat × Nat × Relationship))
    (fs : List (Nat × (Nat → List ASPath → List ASPath))) (g0 : ASGraph)
    (hb : buildGraph l = some g0) (hfs : ∀ p ∈ fs, Prunes p.2) :
    MasterInv (applyFilters g0 fs) := by
  have B := buildGraph_build hb
  obtain ⟨h1, h2, h3, h4, h5, h6, h7⟩ := applyFilters_static fs g0
  have hlog0 : (applyFilters g0 fs).log = [] := by rw [h5]; exact B.logE
  have hwq0 : (applyFilters g0 fs).wq = WorkQueue.empty := by rw [h3]; exact B.wqE
  have hcount0 : ∀ ev, countEv (applyFilters g0 fs).log ev = 0 := by
    intro ev
    rw [hlog0]
    rfl
  refine ⟨⟨?_, ?_, ?_⟩, ?_, ?_, ?_, ?_, ?_, ?_⟩
  · intro u
    rw [h2]
    exact B.noself u
  · intro u
    rw [h1]
    exact B.nodup u
  · intro n f hf
    rcases h7 n f hf with hc | ⟨asn, hmem⟩
    · rw [(B.pristine n).2.2] at hc
      cases hc
    · exact hfs (asn, f) hmem
  · intro n p hp
    rw [(h6 n).1, (B.pristine n).1] at hp
    cases hp
  · intro n
    rw [hcount0]
    exact Nat.zero_le 1
  · intro n hn
    rw [hcount0] at hn
    omega
  · intro n
    rw [hcount0, hcount0]
  · intro a d
    rw [hcount0, hcount0]
  · intro a d
    rw [hcount0, hcount0, hwq0]
    rfl

/-- The neighbor loop of `check_announcement` fails exactly when some
advertised neighbor is absent or poisoned. -/
theorem checkNeighbors_none_iff (g : ASGraph) (src : Nat) (l : List (Nat × ASPath)) :
    checkNeighbors g src l = none ↔ ∃ q ∈ l, q.1 ∉ g.adj src ∨ q.1 ∈ q.2 := by
  induction l with
  | nil => simp [checkNeighbors]
  | cons q rest ih =>
    obtain ⟨nei, path⟩ := q
    by_cases h1 : nei ∈ g.adj src
    · by_cases h2 : nei ∈ path
      · simp [checkNeighbors, h1, h2]
      · simp [checkNeighbors, h1, h2, ih]
    · simp [checkNeighbors, h1]

/-- The source loop of `check_announcement` fails exactly on a bad batch. -/
theorem checkSources_none_iff (g : ASGraph) (l : List (Nat × List (Nat × ASPath))) :
    checkSources g l = none ↔
      ∃ p ∈ l, p.1 ∉ g.nodes ∨ ∃ q ∈ p.2, q.1 ∉ g.adj p.1 ∨ q.1 ∈ q.2 := by
  induction l with
  | nil => simp [checkSources]
  | cons p rest ih =>
    obtain ⟨src, n2p⟩ := p
    by_cases h1 : src ∈ g.nodes
    · cases h2 : checkNeighbors g src n2p with
      | none =>
        have hL : checkSources g ((src, n2p) :: rest) = none := by
          unfold checkSources
          rw [if_neg (not_not.mpr h1), h2]
        have hbad := (checkNeighbors_none_iff g src n2p).1 h2
        rw [hL]
        constructor
        · intro _
          exact ⟨(src, n2p), List.mem_cons_self _ _, Or.inr hbad⟩
        · intro _
          rfl
      | some u =>
        have hL : checkSources g ((src, n2p) :: rest) = checkSources g rest := by
          show (if src ∉ g.nodes then none
                else match checkNeighbors g src n2p with
                     | none => none
                     | some _ => checkSources g rest) = checkSources g rest
          rw [if_neg (not_not.mpr h1), h2]
        have hgood : ¬ ∃ q ∈ n2p, q.1 ∉ g.adj src ∨ q.1 ∈ q.2 := by
          intro hx
          rw [(checkNeighbors_none_iff g src n2p).2 hx] at h2
          cases h2
        rw [hL, ih]
        constructor
        · rintro ⟨p, hp, hc⟩
          exact ⟨p, List.mem_cons_of_mem _ hp, hc⟩
        · rintro ⟨p, hp, hc⟩
          rcases List.mem_cons.mp hp with he | he
          · subst he
            rcases hc with hc | hc
            · exact absurd h1 hc
            · exact absurd hc hgood
          · exact ⟨p, he, hc⟩
    · have hL : checkSources g ((src, n2p) :: rest) = none := by
        unfold checkSources
        rw [if_pos h1]
      rw [hL]
      constructor
      · intro _
        exact ⟨(src, n2p), List.mem_cons_self _ _, Or.inl h1⟩
      · intro _
        rfl

/-- C1: the claim asserts that after `infer_paths` every origin keeps
`path_pref = UNKNOWN` with empty `best_paths`, even when one origin is a
graph neighbor of another origin.  The code violates this: the propagation
loop skips sources, but the seeding step `_make_announcements` does not, so
with the valid anycast announcement from origins {1, 2} on the single edge
1-2 (P2C), origin 1 imports the path (2,) with CUSTOMER preference. -/
theorem c1_origin_imports_at_seeding :
    (makeAnycast gAdjacentOrigins [1, 2]).source2neighbor2path.map (fun e => e.1)
      = [1, 2] ∧
    nodeObs runAdjacentOrigins 1 = some (.CUSTOMER, 1, [[2]]) ∧
    nodeObs runAdjacentOrigins 2 = some (.PROVIDER, 1, [[1]]) := by
  refine ⟨by decide, by decide, by decide⟩

/-- C2 counterexample: in scenario S1 the run completes, but node 3 does not
have path length 2 and its best paths do not contain (1, 10). -/
theorem c2_counterexample :
    runS1.map (fun g => decide ((g.state 3).pathLen = 2 ∧
      [1, 10] ∈ (g.state 3).bestPaths)) = some false := by decide

/-- C2 amended: in scenario S1, node 3 ends with preference PEER, path
length 5, and best paths exactly {(2, 5, 7, 9, 10)}; the path (1, 10) is
rejected because its PROVIDER preference is worse than PEER. -/
theorem c2_s1_node3 :
    nodeObs runS1 3 = some (.PEER, 5, [[2, 5, 7, 9, 10]]) ∧
    nodeObs runS1 8 = some (.PROVIDER, 4, [[6, 4, 1, 10]]) ∧
    nodeObs runS1 1 = some (.CUSTOMER, 1, [[10]]) := by
  refine ⟨by decide, by decide, by decide⟩

/-- C3: the claim asserts the length-monotonicity assertion of
`_update_paths` never fails for valid announcements, including prepended
ones.  The code violates this: with providers 2 and 3 of AS 1, AS 2 also a
provider of AS 3, and origin 1 announcing the prepended path (1, 1) toward
AS 2 but a plain path toward AS 3, the CUSTOMER phase seeds AS 2 at length 3
and then propagates a length-2 path 3 to 2, failing the assertion
(modeled as `none`); the same announcement without prepending completes. -/
theorem c3_prepend_assertion_fails :
    runPrepend.isSome = false ∧
    (runPhase .CUSTOMER 100 {gPrepend with announce := some aPrepend}).isSome = false ∧
    runPlain.isSome = true := by
  refine ⟨by decide, by decide, by decide⟩

/-- C5: in scenario S2, node 3 ends with best paths {(2, 4)} and preference
PEER, node 5 with {(1, 4)} and preference PEER, and node 6 with {(4,)} and
preference PROVIDER. -/
theorem c5_s2_results :
    nodeObs runS2 3 = some (.PEER, 2, [[2, 4]]) ∧
    nodeObs runS2 5 = some (.PEER, 2, [[1, 4]]) ∧
    nodeObs runS2 6 = some (.PROVIDER, 1, [[4]]) := by
  refine ⟨by decide, by decide, by decide⟩

/-- C6: every graph reachable from the empty graph by successful
`add_peering` calls satisfies invariant I1 — each directed edge has a
reciprocal edge carrying the reversed relationship — and the reversal map
(C2P to P2C, P2C to C2P, P2P to P2P) is an involution. -/
theorem c6_reciprocal_edges (l : List (Nat × Nat × Relationship)) (g : ASGraph)
    (hb : buildGraph l = some g) :
    EdgeSymm g ∧ ∀ r : Relationship, r.reversed.reversed = r := by
  constructor
  · refine buildGraphAux_symm l ASGraph.empty g ?_ hb
    intro u v r h
    simp [ASGraph.empty] at h
  · intro r
    exact Relationship.reversed_reversed r

/-- C6 witness: the reciprocal-edge invariant evaluated on scenario S2. -/
theorem c6_reciprocal_edges_witness :
    gS2.edgeRel 4 1 = some .C2P ∧ Relationship.P2C.reversed.reversed = .P2C := by
  have h := c6_reciprocal_edges edgesS2 gS2 rfl
  exact ⟨by have h2 := h.1 1 4 .P2C (by decide); simpa using h2, h.2 .P2C⟩

/-- C7: cloning a graph on which inference has not started succeeds and
yields a deep copy sharing node list, adjacency, edge relationships and node
state, with a fresh empty work queue and no announcement; running
`infer_paths` on the clone leaves the original unchanged. -/
theorem c7_clone_independence (g : ASGraph) (hg : g.announce = none) :
    g.clone.isSome = true ∧
    ∀ g1, g.clone = some g1 →
      g1.nodes = g.nodes ∧ g1.adj = g.adj ∧ g1.edgeRel = g.edgeRel ∧
      g1.state = g.state ∧ g1.wq = WorkQueue.empty ∧ g1.announce = none ∧
      g1.log = [] ∧
      ∀ a fuel gOrig h, cloneAndInfer g a fuel = some (gOrig, h) → gOrig = g := by
  constructor
  · simp [ASGraph.clone, hg]
  · intro g1 h1
    rw [ASGraph.clone, if_pos hg] at h1
    injection h1 with h1
    subst h1
    refine ⟨rfl, rfl, rfl, rfl, rfl, rfl, rfl, ?_⟩
    intro a fuel gOrig h hc
    unfold cloneAndInfer at hc
    cases hcl : g.clone with
    | none => rw [hcl] at hc; cases hc
    | some gc =>
      rw [hcl] at hc
      have hc2 : (match gc.inferPaths a fuel with
                  | none => none
                  | some hfin => some (g, hfin)) = some (gOrig, h) := hc
      cases hinf : gc.inferPaths a fuel with
      | none => rw [hinf] at hc2; cases hc2
      | some x =>
        rw [hinf] at hc2
        injection hc2 with hc2
        exact (congrArg Prod.fst hc2).symm

/-- C7 witness: cloning the S2 base graph. -/
theorem c7_clone_independence_witness :
    cS2.wq = WorkQueue.empty ∧ cS2.announce = none ∧ cS2.state = gS2.state := by
  have h := (c7_clone_independence gS2 rfl).2 cS2 rfl
  exact ⟨h.2.2.2.2.1, h.2.2.2.2.2.1, h.2.2.2.1⟩

/-- C8: `add_peering(u, v, rel)` fails when u equals v; when the edge (u, v)
already exists with a different relationship it fails; when it already
exists with the same relationship the call is a successful no-op returning
the graph unchanged. -/
theorem c8_add_peering_errors (g : ASGraph) (u v : Nat) (r : Relationship) :
    (u = v → g.addPeering u v r = none) ∧
    (∀ r2, g.edgeRel u v = some r2 → r2 ≠ r → g.addPeering u v r = none) ∧
    (u ≠ v → g.edgeRel u v = some r → g.addPeering u v r = some g) := by
  refine ⟨?_, ?_, ?_⟩
  · intro h
    simp [ASGraph.addPeering, h]
  · intro r2 h2 hne
    by_cases huv : u = v
    · simp [ASGraph.addPeering, huv]
    · simp [ASGraph.addPeering, huv, h2, hne]
  · intro huv h2
    simp [ASGraph.addPeering, huv, h2]

/-- C8 witness: evaluated on the S2 graph with edge 1-4 (P2C). -/
theorem c8_add_peering_errors_witness :
    gS2.addPeering 1 1 .P2P = none ∧
    gS2.addPeering 1 4 .P2P = none ∧
    gS2.addPeering 1 4 .P2C = some gS2 := by
  refine ⟨(c8_add_peering_errors gS2 1 1 .P2P).1 rfl,
    (c8_add_peering_errors gS2 1 4 .P2P).2.1 .P2C (by decide) (by decide),
    (c8_add_peering_errors gS2 1 4 .P2C).2.2 (by decide) (by decide)⟩

/-- C9: `check_announcement` fails exactly when some origin is not a node of
the graph, some advertised neighbor is not a graph neighbor of its origin,
or some advertised path contains its immediate neighbor; otherwise it
returns normally.  It reads the graph without modifying it. -/
theorem c9_check_announcement_iff (g : ASGraph) (a : Announcement) :
    (g.checkAnnouncement a = none ↔ BadAnnouncement g a) ∧
    (g.checkAnnouncement a = some () ↔ ¬ BadAnnouncement g a) := by
  have h : g.checkAnnouncement a = none ↔ BadAnnouncement g a :=
    checkSources_none_iff g a.source2neighbor2path
  constructor
  · exact h
  · constructor
    · intro h2 hbad
      rw [h.2 hbad] at h2
      cases h2
    · intro hbad
      cases hcheck : g.checkAnnouncement a with
      | none => exact absurd (h.1 hcheck) hbad
      | some u => rfl

/-- C4: loop freedom.  For every graph built by `add_peering` calls, with
any pruning import filters installed, and every announcement, if
`infer_paths` completes then no node's best paths contain that node. -/
theorem c4_loop_freedom (l : List (Nat × Nat × Relationship))
    (fs : List (Nat × (Nat → List ASPath → List ASPath)))
    (g0 g1 : ASGraph) (a : Announcement) (fuel : Nat)
    (hb : buildGraph l = some g0) (hfs : ∀ p ∈ fs, Prunes p.2)
    (hrun : (applyFilters g0 fs).inferPaths a fuel = some g1) :
    ∀ n p, p ∈ (g1.state n).bestPaths → n ∉ p :=
  (inferPaths_master (initial_master l fs g0 hb hfs) hrun).loopfree

/-- C4 witness: loop freedom evaluated on the completed scenario S2 run. -/
theorem c4_loop_freedom_witness :
    [2, 4] ∈ (gS2r.state 3).bestPaths ∧ (3 : Nat) ∉ ([2, 4] : List Nat) := by
  constructor
  · decide
  · exact c4_loop_freedom edgesS2 [] gS2 gS2r (makeAnycast gS2 [4]) 100 rfl
      (by simp) rfl 3 [2, 4] (by decide)

/-- C10: during a completed `infer_paths` run on a graph built by
`add_peering` calls, `_update_paths` returns true at most once per importer
(logged as `updateTrue`), `add_work` is invoked at most once per node, each
directed edge is enqueued at most once, and each directed edge is visited
(the VISIT_EDGE hook point) at most once. -/
theorem c10_at_most_once (l : List (Nat × Nat × Relationship))
    (g0 g1 : ASGraph) (a : Announcement) (fuel : Nat)
    (hb : buildGraph l = some g0) (hrun : g0.inferPaths a fuel = some g1) :
    (∀ n, countEv g1.log (.updateTrue n) ≤ 1) ∧
    (∀ n, countEv g1.log (.addWorkCall n) ≤ 1) ∧
    (∀ x d, countEv g1.log (.enqueue x d) ≤ 1) ∧
    (∀ x d, countEv g1.log (.visit x d) ≤ 1) := by
  have hM : MasterInv g0 := initial_master l [] g0 hb (by simp)
  have T := (inferPaths_master hM hrun).trace
  refine ⟨T.ut_le, ?_, ?_, ?_⟩
  · intro n
    have h1 := T.aw_le n
    have h2 := T.ut_le n
    omega
  · intro x d
    have h1 := T.enq_le x d
    have h2 := T.aw_le x
    have h3 := T.ut_le x
    omega
  · intro x d
    have h1 := T.visit_q x d
    have h2 := T.enq_le x d
    have h3 := T.aw_le x
    have h4 := T.ut_le x
    omega

/-- C10 witness: at-most-once counts evaluated on the S1 run. -/
theorem c10_at_most_once_witness :
    countEv gS1r.log (.visit 9 10) ≤ 1 ∧ countEv gS1r.log (.updateTrue 3) ≤ 1 := by
  have h := c10_at_most_once edgesS1 gS1 gS1r (makeAnycast gS1 [10]) 100 rfl rfl
  exact ⟨h.2.2.2 9 10, h.1 3⟩

end BGPSim
